import Mathlib

/-!
# Verification of the StoryGenius transcript-alignment core

This file gives a shallow embedding of the client-side word-alignment
subsystem of the StoryGenius reading-practice application:

* `client/src/lib/word-highlighting.ts` — `normalizeText`,
  `stringSimilarity` (Levenshtein-based), `findBestMatch`,
  `highlightWord`, `compareTexts`;
* `client/src/hooks/use-speech-recognition.tsx` — the recognition
  event handlers (`onresult`, `onend`), `startListening`,
  `stopListening`;
* `client/src/components/ReadAlong.tsx` — the word-highlight effect
  that drives the live reading highlight.

JavaScript strings are modelled as Lean `String`s, JS `number`s as `ℚ`
(the similarity arithmetic is exact rational arithmetic here),
`null`/`undefined`-able parameters as `Option`s, and the React state
touched by the handlers as an explicit record that each handler maps to
a new record.  String helpers (`trim`, `split(/\s+/)`, `toLowerCase`)
are implemented on the character lists so that every definition is
executable by the kernel.
-/

namespace StoryGenius

/-! ## JS-style string helpers -/

/-- JS whitespace class (`\s`) restricted to the characters that occur in
the data handled by the aligner. -/
def isJsWhitespace (c : Char) : Bool := c.isWhitespace

/-- `String.prototype.trim`: drop leading and trailing whitespace. -/
def jsTrim (s : String) : String :=
  ⟨((s.data.dropWhile isJsWhitespace).reverse.dropWhile isJsWhitespace).reverse⟩

/-- `String.prototype.toLowerCase`. -/
def jsToLower (s : String) : String := ⟨s.data.map Char.toLower⟩

/-- Splits a character list at each whitespace character (runs of
whitespace produce empty chunks, dropped by the callers' filters). -/
def splitRunsAux : List Char → List Char → List (List Char)
  | [], acc => [acc.reverse]
  | c :: cs, acc =>
    if isJsWhitespace c then acc.reverse :: splitRunsAux cs []
    else splitRunsAux cs (c :: acc)

/-- `s.split(/\s+/)` composed with the `filter(w => w.length > 0)` that
every call site in the source applies: the list of maximal non-empty
whitespace-free runs of `s`. -/
def jsSplitRuns (s : String) : List String :=
  ((splitRunsAux s.data []).filter (fun l => l ≠ [])).map (fun l => ⟨l⟩)

/-- Join a list of words with single spaces (used to model
`replace(/\s+/g, ' ').trim()` and `Array.prototype.join(' ')`). -/
def joinSpaces (ts : List String) : String :=
  ⟨List.intercalate [' '] (ts.map String.data)⟩

/-- The punctuation/symbol set removed by `normalizeText`
(`[.,!?;:"'()\[\]{}*&^%$#@~`|\\\/+\-_=<>]`). -/
def punctuationChars : List Char :=
  ['.', ',', '!', '?', ';', ':', '"', Char.ofNat 39, '(', ')',
   '[', ']', Char.ofNat 123, Char.ofNat 125, '*', '&', '^', '%', '$', '#',
   '@', '~', Char.ofNat 96, '|', '\\', '/', '+', '-', '_', '=', '<', '>']

/-! ## `word-highlighting.ts`: `normalizeText` -/

/-- `normalizeText` on an actual string: lower-case, strip the fixed
punctuation set, collapse whitespace runs to single spaces, trim. -/
def normalizeStr (s : String) : String :=
  if s = "" then ""
  else
    let lowered := jsToLower s
    let stripped : String := ⟨lowered.data.filter (fun c => ¬ punctuationChars.contains c)⟩
    joinSpaces (jsSplitRuns stripped)

/-- `normalizeText(text: string | null | undefined): string`. -/
def normalizeText : Option String → String
  | none => ""
  | some s => normalizeStr s

/-! ## Textbook Levenshtein distance (specification side)

`lev` is the classic recursive Levenshtein distance with insertion,
deletion and substitution each at cost 1; it is proved equal to
Mathlib's `levenshtein Levenshtein.defaultCost` below, and the DP
implementation above is proved to compute it. -/

/-- Substitution cost: `0` for equal characters, else `1`. -/
def subCost (a b : Char) : ℕ := if a = b then 0 else 1

/-- Textbook Levenshtein distance by structural recursion. -/
def lev : List Char → List Char → ℕ
  | [], ys => ys.length
  | xs, [] => xs.length
  | x :: xs, y :: ys =>
    min (lev xs (y :: ys) + 1) (min (lev (x :: xs) ys + 1) (lev xs ys + subCost x y))
termination_by xs ys => xs.length + ys.length
decreasing_by all_goals (simp <;> omega)

/-- Specification device for the DP table: the row of distances from
every prefix of the remaining characters `xs` (extended to the left of
the already-consumed reversed prefix `r`) to the reversed processed
part `v` of the second string. -/
def idealRow (v : List Char) : List Char → List Char → List ℕ
  | r, [] => [lev r v]
  | r, x :: xs => lev r v :: idealRow v (x :: r) xs

/-! ## `word-highlighting.ts`: `stringSimilarity`

The source builds the classic `(len2+1) × (len1+1)` Levenshtein table
`track` row by row (`track[j][i] = Math.min(track[j][i-1]+1,
track[j-1][i]+1, track[j-1][i-1]+indicator)`) and divides the final
entry by the longer length.  `levRowAux`/`levRow` compute one row of
the table from the previous one, `levTable` folds the rows over the
second string, and `levenshteinDP` reads off the final entry. -/

/-- Fill the body of row `j` of the table.  `left` is `track[j][i-1]`,
`prev` is the previous row starting at column `i-1` (so its head is the
diagonal entry `track[j-1][i-1]` and the next entry is `track[j-1][i]`),
and the remaining characters of `str1` drive the recursion. -/
def levRowAux (y : Char) : ℕ → List ℕ → List Char → List ℕ
  | _, _, [] => []
  | _, [], _ :: _ => []
  | left, p0 :: rest, x :: xs =>
    let up := rest.headD 0
    let v := min (left + 1) (min (up + 1) (p0 + subCost x y))
    v :: levRowAux y v rest xs

/-- One full row of the table: `track[j][0] = j` followed by the body. -/
def levRow (y : Char) (prev : List ℕ) (xs : List Char) : List ℕ :=
  (prev.headD 0 + 1) :: levRowAux y (prev.headD 0 + 1) prev xs

/-- The final row of the table for `xs` (= `str1`) against `ys`
(= `str2`): row `0` is `[0, 1, …, len1]`, then one `levRow` per
character of `str2`. -/
def levTable (xs ys : List Char) : List ℕ :=
  ys.foldl (fun prev y => levRow y prev xs) (List.range (xs.length + 1))

/-- `track[str2.length][str1.length]` — the computed edit distance. -/
def levenshteinDP (xs ys : List Char) : ℕ :=
  (levTable xs ys).getLastD 0

/-- `stringSimilarity(str1, str2)`: `1 - distance / maxLength` with the
source's guards for empty inputs. -/
def stringSimilarity (str1 str2 : String) : ℚ :=
  if str1 = "" ∧ str2 = "" then 1
  else if str1 = "" ∨ str2 = "" then 0
  else
    let maxLength := max str1.length str2.length
    if maxLength = 0 then 1
    else 1 - (levenshteinDP str1.data str2.data : ℚ) / (maxLength : ℚ)

/-! ## `word-highlighting.ts`: `findBestMatch` and `highlightWord` -/

/-- The substring test of the source's partial-match category:
`normalizedTarget.includes(normalizedWord) ||
normalizedWord.includes(normalizedTarget)`. -/
def jsIncludes (hay needle : String) : Bool := decide (needle.data <:+: hay.data)

/-- `isSubstring` for a normalized target `nt` against the normalized
spoken word `nw`. -/
def isPartialPair (nt nw : String) : Bool := jsIncludes nt nw || jsIncludes nw nt

/-- The scanning loop of `findBestMatch` over the valid words.
State: current index `i`, `bestPartialMatchIndex` `bp`,
`bestFuzzyMatchIndex` `bf`, `bestSimilarityScore` `bs` (initially the
`0.7` live threshold).  An exact match breaks the loop and is returned
with top priority; otherwise the first partial match wins, otherwise
the best fuzzy score strictly above the threshold, otherwise `-1`. -/
def scanWords (nw : String) : List String → ℕ → ℤ → ℤ → ℚ → ℤ
  | [], _, bp, bf, _ =>
    if bp ≠ -1 then bp else if bf ≠ -1 then bf else -1
  | w :: ws, i, bp, bf, bs =>
    let normalizedTarget := normalizeStr w
    if normalizedTarget = nw then (i : ℤ)
    else
      let bp' := if isPartialPair normalizedTarget nw ∧ bp = -1 then (i : ℤ) else bp
      let similarityScore := stringSimilarity normalizedTarget nw
      if similarityScore > bs then scanWords nw ws (i + 1) bp' (i : ℤ) similarityScore
      else scanWords nw ws (i + 1) bp' bf bs

/-- The post-loop selection of `findBestMatch`: exact already returned,
then `bestPartialMatchIndex`, then `bestFuzzyMatchIndex`, else `-1`. -/
def postScan (bp2 bf2 : ℤ) : ℤ :=
  if bp2 ≠ -1 then bp2 else if bf2 ≠ -1 then bf2 else -1

/-- `findBestMatch(words: string[] | null | undefined, word: string |
null | undefined): number`. -/
def findBestMatch (owords : Option (List String)) (oword : Option String) : ℤ :=
  match owords, oword with
  | some words, some word =>
    if words = [] ∨ word = "" then -1
    else
      let normalizedWord := normalizeStr word
      if normalizedWord = "" then -1
      else
        let validWords := words.filter (fun w => jsTrim w ≠ "")
        if validWords = [] then -1
        else scanWords normalizedWord validWords 0 (-1) (-1) (7 / 10)
  | _, _ => -1

/-- `highlightWord(words, recognizedWord)`: guard, then `findBestMatch`. -/
def highlightWord (owords : Option (List String)) (oword : Option String) : ℤ :=
  match owords, oword with
  | some words, some word =>
    if word = "" then -1 else findBestMatch (some words) (some word)
  | _, _ => -1

/-- The best-match search described by the specification, written over
the valid (non-empty after trimming) entries of the reference list:
first category with a hit wins — exact equality after normalization,
then substring containment either way, then the highest similarity
score provided it strictly exceeds `0.7` (first occurrence in every
category) — otherwise `-1`. -/
def specBestMatch (words : List String) (word : String) : ℤ :=
  let nw := normalizeStr word
  let valid := words.filter (fun w => jsTrim w ≠ "")
  if words = [] ∨ word = "" ∨ nw = "" ∨ valid = [] then -1
  else
    match valid.findIdx? (fun w => normalizeStr w = nw) with
    | some i => (i : ℤ)
    | none =>
      match valid.findIdx? (fun w => isPartialPair (normalizeStr w) nw) with
      | some i => (i : ℤ)
      | none =>
        let scores := valid.map (fun w => stringSimilarity (normalizeStr w) nw)
        let best := scores.foldr max 0
        if 7 / 10 < best then
          match scores.findIdx? (fun s => decide (s = best)) with
          | some i => (i : ℤ)
          | none => -1
        else -1

/-- The fuzzy-tracking part of the scan in isolation (used to relate
the running `bestFuzzyMatchIndex`/`bestSimilarityScore` state to the
specification's maximum). -/
def fuzzyFold (nw : String) : List String → ℕ → ℤ → ℚ → ℤ × ℚ
  | [], _, bf, bs => (bf, bs)
  | w :: ws, i, bf, bs =>
    let s := stringSimilarity (normalizeStr w) nw
    if s > bs then fuzzyFold nw ws (i + 1) (i : ℤ) s
    else fuzzyFold nw ws (i + 1) bf bs

/-! ## `word-highlighting.ts`: `compareTexts` (Page-Level Scorer) -/

/-- One entry of the result of `compareTexts`. -/
structure WordResult where
  word : String
  matched : Bool
  similarityScore : ℚ
deriving DecidableEq, Repr

/-- The inner fuzzy loop of `compareTexts` for one expected word:
track the best similarity seen so far and stop at the first actual
word whose similarity reaches the `0.8` scoring threshold. -/
def fuzzyLoop (normalizedExpected : String) : List String → ℚ → Bool × ℚ
  | [], best => (false, best)
  | actualWord :: rest, best =>
    let similarity := stringSimilarity normalizedExpected (normalizeStr actualWord)
    let best' := if similarity > best then similarity else best
    if similarity ≥ 4 / 5 then (true, best')
    else fuzzyLoop normalizedExpected rest best'

/-- `compareTexts(expected, actual)`: per reference word, exact match
anywhere in the spoken words first, else fuzzy matching against the
`0.8` threshold. -/
def compareTexts (expected actual : String) : List WordResult :=
  if expected = "" ∨ actual = "" then []
  else
    let expectedWords := jsSplitRuns expected
    let actualWords := jsSplitRuns actual
    if expectedWords = [] then []
    else
      expectedWords.map fun word =>
        let normalizedExpected := normalizeStr word
        if actualWords.any (fun aw => normalizeStr aw = normalizedExpected) then
          { word := word, matched := true, similarityScore := 1 }
        else
          let r := fuzzyLoop normalizedExpected actualWords 0
          { word := word, matched := r.1, similarityScore := r.2 }

/-- Modelled from the spec: the `accuracyPct` field of the Page-Level
Scorer's assessment — the fraction of reference words marked matched,
scaled to 0–100.  The source's `compareTexts` returns only the
per-word verdicts; the aggregation into a percentage is described in
§4.5 of the specification but not implemented in the repository (the
deployed percentage comes from the external assessment provider). -/
def accuracyPct (results : List WordResult) : ℚ :=
  if results.length = 0 then 0
  else 100 * ((results.filter (fun r => r.matched)).length : ℚ) / (results.length : ℚ)

/-! ## `use-speech-recognition.tsx`: state and event handlers

The React state of the hook is modelled as a record; each handler maps
a state to a new state.  `onEnd` additionally reports whether it issued
a restart (`recognition.start()`). -/

/-- The `PermissionStatus` union of the hook. -/
inductive PermissionStatus where
  | prompt | granted | denied | checking | unsupported
deriving DecidableEq, Repr

/-- The hook state touched by the alignment-relevant handlers:
`isListening`, the `recognitionRef` instance presence, the restart
counter, the user-facing `error`, and the transcript state. -/
structure SpeechState where
  isListening : Bool
  hasInstance : Bool
  restartCount : ℕ
  error : Option String
  transcript : String
  interim : String
  lastWord : String
  confidence : ℚ
deriving DecidableEq, Repr

/-- A recognition result event: one new `interim` or `final` segment
with its confidence (the shape the `onresult` handler consumes). -/
inductive RecEvent where
  | interim (text : String) (confidence : ℚ)
  | final (text : String) (confidence : ℚ)
deriving DecidableEq, Repr

/-- `extractLastWord(text)`: trim, split on whitespace, last token
lower-cased. -/
def extractLastWord (text : String) : String :=
  if text = "" then ""
  else
    let cleanedText := jsTrim text
    match (jsSplitRuns cleanedText).getLast? with
    | some w => jsToLower w
    | none => ""

/-- The `onresult` handler for a single-segment event: update the
confidence when positive; for an interim segment set the last detected
word (when non-empty) and replace the interim transcript wholesale;
for a final segment append to the accumulated transcript and clear the
interim transcript.  Note that the handler consults no session token
and no listening flag. -/
def onResult (ev : RecEvent) (s : SpeechState) : SpeechState :=
  match ev with
  | .interim t conf =>
    let s1 := if 0 < conf then { s with confidence := conf } else s
    let cleanedInterim := jsTrim (" " ++ t)
    let lastWord := extractLastWord cleanedInterim
    let s2 := if lastWord ≠ "" then { s1 with lastWord := lastWord } else s1
    { s2 with interim := cleanedInterim }
  | .final t conf =>
    let s1 := if 0 < conf then { s with confidence := conf } else s
    let ft := jsTrim (" " ++ t)
    { s1 with
      transcript := if s1.transcript = "" then ft else s1.transcript ++ " " ++ ft
      interim := "" }

/-- `maxRestartAttempts` of the hook. -/
def maxRestartAttempts : ℕ := 3

/-- The `onend` handler: while listening with a live instance, restart
(and count) while under the budget, otherwise stop and surface the
instability error; when not listening just record the stop.  The
returned flag reports whether `recognition.start()` was called. -/
def onEnd (s : SpeechState) : SpeechState × Bool :=
  if s.isListening && s.hasInstance then
    if s.restartCount < maxRestartAttempts then
      ({ s with restartCount := s.restartCount + 1 }, true)
    else
      ({ s with isListening := false
                error := some "Speech recognition stopped unexpectedly. Please try again." },
       false)
  else
    ({ s with isListening := false }, false)

/-- `n` consecutive unexpected engine terminations: iterate `onEnd`,
counting the restarts that were issued. -/
def runTerminations : ℕ → SpeechState → SpeechState × ℕ
  | 0, s => (s, 0)
  | n + 1, s =>
    let r := onEnd s
    let rest := runTerminations n r.1
    (rest.1, (if r.2 then 1 else 0) + rest.2)

/-- `stopListening()`: stop the engine, drop the listening flag, clear
the interim transcript, reset the restart counter.  The result handlers
stay attached to the engine instance. -/
def stopListening (s : SpeechState) : SpeechState :=
  { s with isListening := false, interim := "", restartCount := 0 }

/-- `startListening()` up to the point where the engine is started.
`supported` models `getSpeechRecognition() !== null`, `perm0` the
browser's microphone permission, `mediaGranted` the outcome of the
`getUserMedia` request issued for a `prompt` permission, `permAfter`
the permission reported after that request, and `engineStartOk` whether
`recognition.start()` succeeded. -/
def startListening (supported : Bool) (perm0 : PermissionStatus)
    (mediaGranted : Bool) (permAfter : PermissionStatus)
    (engineStartOk : Bool) (s : SpeechState) : SpeechState :=
  if supported = false then
    { s with error := some "Speech recognition not supported in this browser" }
  else if perm0 = .denied then
    { s with error := some "Microphone access denied. Please allow access in your browser settings." }
  else
    let afterPrompt : SpeechState × Bool :=
      if perm0 = .prompt then
        if mediaGranted then (s, permAfter = .granted)
        else
          ({ s with error := some "Microphone permission denied. Please allow access in your browser settings." },
           false)
      else (s, true)
    if afterPrompt.2 = false then afterPrompt.1
    else
      let s2 := { afterPrompt.1 with
        error := none, transcript := "", interim := "", lastWord := "",
        confidence := 0, restartCount := 0, hasInstance := true }
      if engineStartOk then { s2 with isListening := true }
      else { s2 with isListening := false, error := some "Failed to start speech recognition" }

/-! ## `ReadAlong.tsx`: the word-highlight effect -/

/-- The page words handed to the effect: `page.words.map(w =>
(w?.text || "").toLowerCase()).filter(w => w.length > 0)`. -/
def derivePageWords (texts : List String) : List String :=
  (texts.map jsToLower).filter (fun w => w ≠ "")

/-- The word-highlight effect: priority chain last-detected word →
last word of the interim transcript → last word of the accumulated
transcript; the highlighted index is updated whenever the chosen word
has a match (`index !== -1`), with no monotonicity guard. -/
def wordHighlightEffect (pageWords : List String) (s : SpeechState) (cur : ℤ) : ℤ :=
  if pageWords = [] then cur
  else if jsTrim s.lastWord ≠ "" then
    let i := highlightWord (some pageWords) (some s.lastWord)
    if i ≠ -1 then i else cur
  else if jsTrim s.interim ≠ "" then
    match (jsSplitRuns (jsToLower s.interim)).getLast? with
    | some w =>
      if w ≠ "" then
        let i := highlightWord (some pageWords) (some w)
        if i ≠ -1 then i else cur
      else cur
    | none => cur
  else if jsTrim s.transcript ≠ "" then
    match (jsSplitRuns (jsToLower s.transcript)).getLast? with
    | some w =>
      if w ≠ "" then
        let i := highlightWord (some pageWords) (some w)
        if i ≠ -1 then i else cur
      else cur
    | none => cur
  else cur

/-- The hook state right after `startListening` succeeded from idle:
listening, fresh transcripts, no error. -/
def initialSpeechState : SpeechState :=
  { isListening := true, hasInstance := true, restartCount := 0, error := none,
    transcript := "", interim := "", lastWord := "", confidence := 0 }

/-- Process a list of recognition events during a session, recording
the highlighted word index after each event. -/
def highlightTrace (pageWords : List String) : List RecEvent → SpeechState → ℤ → List ℤ
  | [], _, _ => []
  | ev :: evs, s, cur =>
    let s' := onResult ev s
    let cur' := wordHighlightEffect pageWords s' cur
    cur' :: highlightTrace pageWords evs s' cur'

/-- A full reading session over the given page words, starting from the
fresh state with no highlight. -/
def runReadAlong (pageWords : List String) (evs : List RecEvent) : List ℤ :=
  highlightTrace pageWords evs initialSpeechState (-1)

/-! ## Concrete fixtures used by the claims -/

/-- The reference words of the specification's streaming example. -/
def zipReference : List String := ["Zip", "and", "Zap", "are", "space", "pirates."]

/-- The page words the ReadAlong effect derives from them. -/
def zipPageWords : List String := derivePageWords zipReference

/-- The specification's streaming trace: interim `"zip"`, interim
`"zip and"`, then final `"zip and zap "`. -/
def zipTrace : List RecEvent :=
  [.interim "zip" (9 / 10), .interim "zip and" (9 / 10), .final "zip and zap " (9 / 10)]

/-- A trace whose second event matches an earlier reference position:
interim `"zap"` then interim `"zip"`. -/
def backwardTrace : List RecEvent :=
  [.interim "zap" (9 / 10), .interim "zip" (9 / 10)]

/-- A listening session state (mid-session values in the transcript
fields). -/
def listeningState : SpeechState :=
  { isListening := true, hasInstance := true, restartCount := 0, error := none,
    transcript := "zip and", interim := "zap ar", lastWord := "ar", confidence := 9 / 10 }

/-- A mid-session listening state used for the stop/late-event race. -/
def c5SessionState : SpeechState :=
  { isListening := true, hasInstance := true, restartCount := 1, error := none,
    transcript := "zip and", interim := "zap ar", lastWord := "ar", confidence := 9 / 10 }

/-- The idle hook state before any session. -/
def idleState : SpeechState :=
  { isListening := false, hasInstance := false, restartCount := 0, error := none,
    transcript := "", interim := "", lastWord := "", confidence := 0 }

/-! ## Correctness of the Levenshtein dynamic program -/

theorem lev_nil_left (ys : List Char) : lev [] ys = ys.length := by
  cases ys <;> simp [lev]

theorem lev_nil_right (xs : List Char) : lev xs [] = xs.length := by
  cases xs <;> simp [lev]

theorem lev_cons_cons (x y : Char) (xs ys : List Char) :
    lev (x :: xs) (y :: ys) =
      min (lev xs (y :: ys) + 1) (min (lev (x :: xs) ys + 1) (lev xs ys + subCost x y)) := by
  simp [lev]

set_option maxHeartbeats 1600000 in
/-- The edit-distance recurrence also holds at the right ends of the
two lists. -/
theorem lev_snoc_snoc (a b : Char) : ∀ (xs ys : List Char),
    lev (xs ++ [a]) (ys ++ [b]) =
      min (lev xs (ys ++ [b]) + 1)
        (min (lev (xs ++ [a]) ys + 1) (lev xs ys + subCost a b)) := by
  intro xs
  induction xs with
  | nil =>
    intro ys
    induction ys with
    | nil =>
      simp only [List.nil_append, lev_cons_cons, lev_nil_left, lev_nil_right]
    | cons y ys ihy =>
      simp only [List.nil_append] at ihy ⊢
      simp only [List.cons_append, lev_cons_cons, ihy, lev_nil_left,
        List.length_append, List.length_cons, List.length_nil]
      omega
  | cons x xs ihx =>
    intro ys
    induction ys with
    | nil =>
      have h2 := ihx []
      simp only [List.nil_append] at h2 ⊢
      simp only [List.cons_append, lev_cons_cons, h2, lev_nil_right,
        List.length_append, List.length_cons, List.length_nil]
      omega
    | cons y ys ihy =>
      have h1 := ihx (y :: ys)
      have h2 := ihx ys
      have h3 := ihy
      simp only [List.cons_append] at h1 h3 ⊢
      rw [lev_cons_cons x y (xs ++ [a]) (ys ++ [b]), lev_cons_cons x y xs (ys ++ [b]),
        lev_cons_cons x y (xs ++ [a]) ys, lev_cons_cons x y xs ys, h1, h3, h2]
      simp only [← min_add_add_right]
      ring_nf
      ac_rfl

/-- Levenshtein distance is invariant under reversing both inputs. -/
theorem lev_reverse : ∀ (xs ys : List Char), lev xs.reverse ys.reverse = lev xs ys := by
  intro xs
  induction xs with
  | nil =>
    intro ys
    simp [lev_nil_left]
  | cons x xs ihx =>
    intro ys
    induction ys with
    | nil =>
      simp [lev_nil_right]
    | cons y ys ihy =>
      have h1 := ihx (y :: ys)
      have h2 := ihx ys
      have h3 := ihy
      rw [List.reverse_cons] at h1 h3
      rw [List.reverse_cons, List.reverse_cons, lev_snoc_snoc, h1, h3, h2,
        lev_cons_cons]

theorem idealRow_headD (v r : List Char) (xs : List Char) :
    (idealRow v r xs).headD 0 = lev r v := by
  cases xs <;> simp [idealRow]

theorem idealRow_head_cons (v r : List Char) (xs : List Char) :
    idealRow v r xs = lev r v :: (idealRow v r xs).tail := by
  cases xs <;> simp [idealRow]

/-- The row-filling loop maps the ideal row for `v` to the ideal row
for `y :: v`, provided the entry to its left is already correct. -/
theorem levRowAux_correct (y : Char) (v : List Char) :
    ∀ (xs r : List Char),
      levRowAux y (lev r (y :: v)) (idealRow v r xs) xs = (idealRow (y :: v) r xs).tail := by
  intro xs
  induction xs with
  | nil =>
    intro r
    simp [levRowAux, idealRow]
  | cons x xs ih =>
    intro r
    show levRowAux y (lev r (y :: v)) (lev r v :: idealRow v (x :: r) xs) (x :: xs) = _
    rw [levRowAux]
    rw [idealRow_headD]
    rw [show min (lev r (y :: v) + 1) (min (lev (x :: r) v + 1) (lev r v + subCost x y)) =
          lev (x :: r) (y :: v) from (lev_cons_cons x y r v).symm]
    rw [ih (x :: r)]
    rw [show idealRow (y :: v) r (x :: xs) = lev r (y :: v) :: idealRow (y :: v) (x :: r) xs
          from rfl]
    rw [List.tail_cons]
    exact (idealRow_head_cons (y :: v) (x :: r) xs).symm

theorem levRow_correct (y : Char) (v : List Char) (xs : List Char) :
    levRow y (idealRow v [] xs) xs = idealRow (y :: v) [] xs := by
  unfold levRow
  rw [idealRow_headD]
  have h0 : lev ([] : List Char) v + 1 = lev [] (y :: v) := by
    simp [lev_nil_left]
  rw [h0, levRowAux_correct]
  exact (idealRow_head_cons (y :: v) [] xs).symm

theorem idealRow_nil_v : ∀ (xs r : List Char),
    idealRow [] r xs = (List.range (xs.length + 1)).map (fun i => r.length + i) := by
  intro xs
  induction xs with
  | nil =>
    intro r
    simp [idealRow, lev_nil_right, List.range_succ, List.range_zero]
  | cons x xs ih =>
    intro r
    show lev r [] :: idealRow [] (x :: r) xs = _
    rw [ih (x :: r), lev_nil_right]
    simp only [List.length_cons]
    conv_rhs => rw [List.range_succ_eq_map]
    simp only [List.map_cons, List.map_map, Nat.add_zero]
    congr 1
    refine List.map_congr_left fun i _ => ?_
    simp only [Function.comp_apply, List.length_cons]
    omega

theorem idealRow_base (xs : List Char) :
    List.range (xs.length + 1) = idealRow [] [] xs := by
  rw [idealRow_nil_v xs []]
  simp

theorem levTable_fold (xs : List Char) : ∀ (ys v : List Char),
    ys.foldl (fun prev y => levRow y prev xs) (idealRow v [] xs) =
      idealRow (ys.reverse ++ v) [] xs := by
  intro ys
  induction ys with
  | nil => intro v; simp
  | cons y ys ih =>
    intro v
    rw [List.foldl_cons, levRow_correct, ih (y :: v)]
    simp

theorem idealRow_getLastD (v : List Char) : ∀ (xs r : List Char) (d : ℕ),
    (idealRow v r xs).getLastD d = lev (xs.reverse ++ r) v := by
  intro xs
  induction xs with
  | nil =>
    intro r d
    simp [idealRow]
  | cons x xs ih =>
    intro r d
    show (lev r v :: idealRow v (x :: r) xs).getLastD d = _
    rw [List.getLastD_cons, ih (x :: r)]
    simp

/-- The dynamic program of `stringSimilarity` computes the textbook
Levenshtein distance. -/
theorem levenshteinDP_eq_lev (xs ys : List Char) : levenshteinDP xs ys = lev xs ys := by
  unfold levenshteinDP levTable
  rw [idealRow_base, levTable_fold xs ys []]
  rw [idealRow_getLastD]
  simp [lev_reverse]

theorem levenshtein_nil_right_default (xs : List Char) :
    levenshtein Levenshtein.defaultCost xs [] = xs.length := by
  induction xs with
  | nil => simp
  | cons x xs ih => rw [levenshtein_cons_nil, ih]; simp; omega

theorem levenshtein_nil_left_default (ys : List Char) :
    levenshtein Levenshtein.defaultCost [] ys = ys.length := by
  induction ys with
  | nil => simp
  | cons y ys ih => rw [levenshtein_nil_cons, ih]; simp; omega

/-- The textbook recursion agrees with Mathlib's Levenshtein distance
at the all-costs-1 cost structure. -/
theorem lev_eq_levenshtein : ∀ (xs ys : List Char),
    lev xs ys = levenshtein Levenshtein.defaultCost xs ys := by
  intro xs
  induction xs with
  | nil =>
    intro ys
    rw [lev_nil_left, levenshtein_nil_left_default]
  | cons x xs ihx =>
    intro ys
    induction ys with
    | nil =>
      rw [lev_nil_right, levenshtein_nil_right_default]
    | cons y ys ihy =>
      rw [lev_cons_cons, levenshtein_cons_cons, ihx (y :: ys), ihy, ihx ys]
      simp [Levenshtein.defaultCost, subCost]
      omega

/-! ## Equivalence of the `findBestMatch` scan with the specification -/

theorem foldr_max_exchange (l : List ℚ) (a b : ℚ) :
    l.foldr max (max a b) = max a (l.foldr max b) := by
  induction l with
  | nil => rfl
  | cons x l ih => simp only [List.foldr_cons, ih, max_left_comm]

theorem le_foldr_max (l : List ℚ) (b : ℚ) : b ≤ l.foldr max b := by
  induction l with
  | nil => exact le_refl b
  | cons x l ih => exact le_trans ih (le_max_right x _)

theorem foldr_max_mem (l : List ℚ) (b : ℚ) :
    l.foldr max b = b ∨ l.foldr max b ∈ l := by
  induction l with
  | nil => exact Or.inl rfl
  | cons x l ih =>
    rcases max_choice x (l.foldr max b) with h | h
    · rw [List.foldr_cons, h]
      exact Or.inr (List.mem_cons_self x l)
    · rw [List.foldr_cons, h]
      rcases ih with h' | h'
      · exact Or.inl h'
      · exact Or.inr (List.mem_cons_of_mem x h')

/-- The running `bestFuzzyMatchIndex` of the scan is the first position
attaining the maximum similarity, provided that maximum strictly
improves on the initial `bestSimilarityScore`; otherwise the incoming
index is kept. -/
theorem fuzzyFold_fst (nw : String) : ∀ (ts : List String) (i : ℕ) (bf : ℤ) (bs : ℚ),
    (fuzzyFold nw ts i bf bs).1 =
      (if bs < (ts.map (fun w => stringSimilarity (normalizeStr w) nw)).foldr max bs then
        match (ts.map (fun w => stringSimilarity (normalizeStr w) nw)).findIdx?
            (fun s => decide (s = (ts.map (fun w => stringSimilarity (normalizeStr w) nw)).foldr max bs)) with
        | some k => ((i + k : ℕ) : ℤ)
        | none => bf
      else bf) := by
  intro ts
  induction ts with
  | nil =>
    intro i bf bs
    simp [fuzzyFold]
  | cons w ts ih =>
    intro i bf bs
    have hself : bs ≤ (ts.map (fun w => stringSimilarity (normalizeStr w) nw)).foldr max bs :=
      le_foldr_max _ bs
    by_cases h : stringSimilarity (normalizeStr w) nw > bs
    · have hfz : fuzzyFold nw (w :: ts) i bf bs =
          fuzzyFold nw ts (i + 1) (i : ℤ) (stringSimilarity (normalizeStr w) nw) := by
        simp [fuzzyFold, h]
      have hb2 : (ts.map (fun w => stringSimilarity (normalizeStr w) nw)).foldr max
            (stringSimilarity (normalizeStr w) nw) =
          max (stringSimilarity (normalizeStr w) nw)
            ((ts.map (fun w => stringSimilarity (normalizeStr w) nw)).foldr max bs) := by
        have hx := foldr_max_exchange (ts.map (fun w => stringSimilarity (normalizeStr w) nw))
          (stringSimilarity (normalizeStr w) nw) bs
        rwa [max_eq_left h.le] at hx
      have hcond : bs < ((w :: ts).map (fun w => stringSimilarity (normalizeStr w) nw)).foldr max bs := by
        simp only [List.map_cons, List.foldr_cons]
        exact lt_of_lt_of_le h (le_max_left _ _)
      rw [hfz, ih (i + 1) (i : ℤ) (stringSimilarity (normalizeStr w) nw), if_pos hcond]
      simp only [List.map_cons, List.foldr_cons] at hcond ⊢
      by_cases hcmp : stringSimilarity (normalizeStr w) nw <
          (ts.map (fun w => stringSimilarity (normalizeStr w) nw)).foldr max bs
      · have hmax : max (stringSimilarity (normalizeStr w) nw)
              ((ts.map (fun w => stringSimilarity (normalizeStr w) nw)).foldr max bs) =
            (ts.map (fun w => stringSimilarity (normalizeStr w) nw)).foldr max bs :=
          max_eq_right hcmp.le
        simp only [hb2, hmax]
        rw [if_pos hcmp]
        rw [List.findIdx?_cons]
        have hne : ¬ (stringSimilarity (normalizeStr w) nw =
            (ts.map (fun w => stringSimilarity (normalizeStr w) nw)).foldr max bs) := ne_of_lt hcmp
        simp only [hne, decide_False, Bool.false_eq_true, if_false, List.findIdx?_succ]
        cases hfind : (ts.map (fun w => stringSimilarity (normalizeStr w) nw)).findIdx?
            (fun s => decide (s = (ts.map (fun w => stringSimilarity (normalizeStr w) nw)).foldr max bs)) with
        | some k =>
          simp only [hfind, Option.map_some']
          push_cast
          ring
        | none =>
          exfalso
          rcases foldr_max_mem (ts.map (fun w => stringSimilarity (normalizeStr w) nw))
              (stringSimilarity (normalizeStr w) nw) with hm | hm
          · rw [hb2, hmax] at hm
            exact absurd hm (ne_of_gt hcmp)
          · rw [hb2, hmax] at hm
            have := (List.findIdx?_eq_none_iff.mp hfind) _ hm
            simp at this
      · have hle : (ts.map (fun w => stringSimilarity (normalizeStr w) nw)).foldr max bs ≤
            stringSimilarity (normalizeStr w) nw := not_lt.mp hcmp
        have hmax : max (stringSimilarity (normalizeStr w) nw)
              ((ts.map (fun w => stringSimilarity (normalizeStr w) nw)).foldr max bs) =
            stringSimilarity (normalizeStr w) nw := max_eq_left hle
        simp only [hb2, hmax]
        rw [if_neg (lt_irrefl _)]
        rw [List.findIdx?_cons]
        simp
    · have hle : stringSimilarity (normalizeStr w) nw ≤ bs := not_lt.mp h
      have hfz : fuzzyFold nw (w :: ts) i bf bs = fuzzyFold nw ts (i + 1) bf bs := by
        simp [fuzzyFold, h]
      have hmax : max (stringSimilarity (normalizeStr w) nw)
            ((ts.map (fun w => stringSimilarity (normalizeStr w) nw)).foldr max bs) =
          (ts.map (fun w => stringSimilarity (normalizeStr w) nw)).foldr max bs :=
        max_eq_right (le_trans hle hself)
      rw [hfz, ih (i + 1) bf bs]
      simp only [List.map_cons, List.foldr_cons, hmax]
      by_cases hlt : bs < (ts.map (fun w => stringSimilarity (normalizeStr w) nw)).foldr max bs
      · rw [if_pos hlt, if_pos hlt, List.findIdx?_cons]
        have hne : ¬ (stringSimilarity (normalizeStr w) nw =
            (ts.map (fun w => stringSimilarity (normalizeStr w) nw)).foldr max bs) :=
          ne_of_lt (lt_of_le_of_lt hle hlt)
        simp only [hne, decide_False, Bool.false_eq_true, if_false, List.findIdx?_succ]
        cases hfind : (ts.map (fun w => stringSimilarity (normalizeStr w) nw)).findIdx?
            (fun s => decide (s = (ts.map (fun w => stringSimilarity (normalizeStr w) nw)).foldr max bs)) with
        | some k =>
          simp only [hfind, Option.map_some']
          push_cast
          ring
        | none => simp [hfind]
      · rw [if_neg hlt, if_neg hlt]

/-- The scan of `findBestMatch` over an arbitrary suffix of the valid
words, for an arbitrary intermediate state: exact first occurrence wins
outright, otherwise the first partial (kept from the already-scanned
prefix when present) and the running fuzzy state decide. -/
theorem scanWords_eq (nw : String) : ∀ (ws : List String) (i : ℕ) (bp bf : ℤ) (bs : ℚ),
    scanWords nw ws i bp bf bs =
      match ws.findIdx? (fun w => decide (normalizeStr w = nw)) with
      | some k => ((i + k : ℕ) : ℤ)
      | none =>
        postScan
          (if bp = -1 then
            (match ws.findIdx? (fun w => isPartialPair (normalizeStr w) nw) with
             | some k => ((i + k : ℕ) : ℤ)
             | none => -1)
           else bp)
          (fuzzyFold nw ws i bf bs).1 := by
  intro ws
  induction ws with
  | nil =>
    intro i bp bf bs
    simp only [scanWords, List.findIdx?_nil, fuzzyFold, postScan]
    by_cases hbp : bp = -1 <;> simp [hbp]
  | cons w ws ih =>
    intro i bp bf bs
    by_cases hx : normalizeStr w = nw
    · simp [scanWords, hx, List.findIdx?_cons]
    · have hxcons : List.findIdx? (fun w => decide (normalizeStr w = nw)) (w :: ws) =
          Option.map (fun j => j + 1) (List.findIdx? (fun w => decide (normalizeStr w = nw)) ws) := by
        rw [List.findIdx?_cons, List.findIdx?_succ]
        simp [hx]
      have hscan : scanWords nw (w :: ws) i bp bf bs =
          (if stringSimilarity (normalizeStr w) nw > bs then
            scanWords nw ws (i + 1)
              (if isPartialPair (normalizeStr w) nw ∧ bp = -1 then (i : ℤ) else bp) (i : ℤ)
              (stringSimilarity (normalizeStr w) nw)
          else
            scanWords nw ws (i + 1)
              (if isPartialPair (normalizeStr w) nw ∧ bp = -1 then (i : ℤ) else bp) bf bs) := by
        simp [scanWords, hx]
      cases hex : List.findIdx? (fun w => decide (normalizeStr w = nw)) ws with
      | some k =>
        rw [hscan, hxcons, hex, Option.map_some']
        by_cases hs : stringSimilarity (normalizeStr w) nw > bs
        · rw [if_pos hs, ih]
          simp only [hex]
          push_cast
          ring
        · rw [if_neg hs, ih]
          simp only [hex]
          push_cast
          ring
      | none =>
        rw [hscan, hxcons, hex, Option.map_none']
        have hinat : ((i : ℤ)) ≠ -1 := by omega
        have hfzcons : ∀ (bf0 : ℤ) (bs0 : ℚ), fuzzyFold nw (w :: ws) i bf0 bs0 =
            (if stringSimilarity (normalizeStr w) nw > bs0 then
              fuzzyFold nw ws (i + 1) (i : ℤ) (stringSimilarity (normalizeStr w) nw)
            else fuzzyFold nw ws (i + 1) bf0 bs0) := by
          intro bf0 bs0
          by_cases hs0 : stringSimilarity (normalizeStr w) nw > bs0 <;> simp [fuzzyFold, hs0]
        have hbp2 : (if (if isPartialPair (normalizeStr w) nw ∧ bp = -1 then (i : ℤ) else bp) = -1
              then (match List.findIdx? (fun w => isPartialPair (normalizeStr w) nw) ws with
                    | some k => ((i + 1 + k : ℕ) : ℤ)
                    | none => -1)
              else (if isPartialPair (normalizeStr w) nw ∧ bp = -1 then (i : ℤ) else bp)) =
            (if bp = -1 then
              (match List.findIdx? (fun w => isPartialPair (normalizeStr w) nw) (w :: ws) with
               | some k => ((i + k : ℕ) : ℤ)
               | none => -1)
             else bp) := by
          rw [List.findIdx?_cons, List.findIdx?_succ]
          by_cases hp : isPartialPair (normalizeStr w) nw
          · by_cases hbp : bp = -1 <;> simp [hp, hbp, hinat]
          · have hbpv : (if isPartialPair (normalizeStr w) nw ∧ bp = -1 then (i : ℤ) else bp) = bp := by
              simp [hp]
            rw [hbpv]
            by_cases hbp : bp = -1
            · rw [if_pos hbp, if_pos hbp]
              simp only [hp, Bool.false_eq_true, if_false]
              cases hpart : List.findIdx? (fun w => isPartialPair (normalizeStr w) nw) ws with
              | some k =>
                simp only [hpart, Option.map_some']
                push_cast
                ring
              | none => simp [hpart]
            · rw [if_neg hbp, if_neg hbp]
        by_cases hs : stringSimilarity (normalizeStr w) nw > bs
        · rw [if_pos hs, ih]
          simp only [hex]
          rw [hfzcons bf bs, if_pos hs, hbp2]
        · rw [if_neg hs, ih]
          simp only [hex]
          rw [hfzcons bf bs, if_neg hs, hbp2]

/-- `findBestMatch` computes exactly the specification's prioritized
search over the filtered valid words. -/
theorem findBestMatch_eq_spec (words : List String) (word : String) :
    findBestMatch (some words) (some word) = specBestMatch words word := by
  by_cases h1 : words = []
  · simp [findBestMatch, specBestMatch, h1]
  · by_cases h2 : word = ""
    · simp [findBestMatch, specBestMatch, h2]
    · have hguard : ¬(words = [] ∨ word = "") := by simp [h1, h2]
      by_cases h3 : normalizeStr word = ""
      · have hL : findBestMatch (some words) (some word) = -1 := by
          simp only [findBestMatch]
          rw [if_neg hguard, if_pos h3]
        have hR : specBestMatch words word = -1 := by
          simp only [specBestMatch]
          rw [if_pos (Or.inr (Or.inr (Or.inl h3)))]
        rw [hL, hR]
      · by_cases h4 : words.filter (fun w => jsTrim w ≠ "") = []
        · have hL : findBestMatch (some words) (some word) = -1 := by
            simp only [findBestMatch]
            rw [if_neg hguard, if_neg h3, if_pos h4]
          have hR : specBestMatch words word = -1 := by
            simp only [specBestMatch]
            rw [if_pos (Or.inr (Or.inr (Or.inr h4)))]
          rw [hL, hR]
        · simp only [findBestMatch, specBestMatch]
          rw [if_neg hguard, if_neg h3, if_neg h4,
            if_neg (show ¬(words = [] ∨ word = "" ∨ normalizeStr word = "" ∨
              words.filter (fun w => jsTrim w ≠ "") = []) by
                rintro (h | h | h | h)
                exacts [h1 h, h2 h, h3 h, h4 h])]
          rw [scanWords_eq]
          cases hex : List.findIdx? (fun w => decide (normalizeStr w = normalizeStr word))
              (words.filter (fun w => jsTrim w ≠ "")) with
          | some k => simp [hex]
          | none =>
            simp only [hex]
            cases hpart : List.findIdx?
                (fun w => isPartialPair (normalizeStr w) (normalizeStr word))
                (words.filter (fun w => jsTrim w ≠ "")) with
            | some k =>
              simp only [hpart, if_pos rfl]
              have : ((0 + k : ℕ) : ℤ) ≠ -1 := by omega
              simp [postScan, this]
            | none =>
              simp only [hpart, if_pos rfl]
              rw [fuzzyFold_fst]
              have hexch := foldr_max_exchange
                ((words.filter (fun w => jsTrim w ≠ "")).map
                  (fun w => stringSimilarity (normalizeStr w) (normalizeStr word)))
                (7 / 10) 0
              rw [show max ((7 : ℚ) / 10) 0 = 7 / 10 from max_eq_left (by norm_num)] at hexch
              by_cases hlt : (7 : ℚ) / 10 <
                  ((words.filter (fun w => jsTrim w ≠ "")).map
                    (fun w => stringSimilarity (normalizeStr w) (normalizeStr word))).foldr max 0
              · have hB : ((words.filter (fun w => jsTrim w ≠ "")).map
                      (fun w => stringSimilarity (normalizeStr w) (normalizeStr word))).foldr max (7 / 10) =
                    ((words.filter (fun w => jsTrim w ≠ "")).map
                      (fun w => stringSimilarity (normalizeStr w) (normalizeStr word))).foldr max 0 := by
                  rw [hexch]
                  exact max_eq_right hlt.le
                simp only [hB]
                rw [if_pos hlt, if_pos hlt]
                cases hfind : ((words.filter (fun w => jsTrim w ≠ "")).map
                    (fun w => stringSimilarity (normalizeStr w) (normalizeStr word))).findIdx?
                    (fun s => decide (s =
                      ((words.filter (fun w => jsTrim w ≠ "")).map
                        (fun w => stringSimilarity (normalizeStr w) (normalizeStr word))).foldr max 0)) with
                | some k =>
                  have : ((0 + k : ℕ) : ℤ) ≠ -1 := by omega
                  simp [postScan, this]
                | none => simp [postScan]
              · have hB : ((words.filter (fun w => jsTrim w ≠ "")).map
                      (fun w => stringSimilarity (normalizeStr w) (normalizeStr word))).foldr max (7 / 10) =
                    7 / 10 := by
                  rw [hexch]
                  exact max_eq_left (not_lt.mp hlt)
                simp only [hB]
                rw [if_neg (lt_irrefl _), if_neg hlt]
                simp [postScan]

/-! ## Ground evaluations used by the concrete claims -/

theorem stringSimilarity_eval (a b : String) (d n : ℕ) (ha : a ≠ "") (hb : b ≠ "")
    (hd : levenshteinDP a.data b.data = d) (hn : max a.length b.length = n) (h0 : n ≠ 0) :
    stringSimilarity a b = 1 - (d : ℚ) / (n : ℚ) := by
  simp [stringSimilarity, ha, hb, hd, hn, h0]

theorem sim_zip_and : stringSimilarity "zip" "and" = 0 := by
  rw [stringSimilarity_eval "zip" "and" 3 3 (by decide) (by decide) (by decide) (by decide)
    (by decide)]
  norm_num

theorem sim_zip_zap : stringSimilarity "zip" "zap" = 2 / 3 := by
  rw [stringSimilarity_eval "zip" "zap" 1 3 (by decide) (by decide) (by decide) (by decide)
    (by decide)]
  norm_num

theorem sim_and_zap : stringSimilarity "and" "zap" = 0 := by
  rw [stringSimilarity_eval "and" "zap" 3 3 (by decide) (by decide) (by decide) (by decide)
    (by decide)]
  norm_num

theorem sim_past_pass : stringSimilarity "past" "pass" = 3 / 4 := by
  rw [stringSimilarity_eval "past" "pass" 1 4 (by decide) (by decide) (by decide) (by decide)
    (by decide)]
  norm_num

theorem fb_zip :
    findBestMatch (some ["zip", "and", "zap", "are", "space", "pirates."]) (some "zip") = 0 := by
  decide

theorem fb_and :
    findBestMatch (some ["zip", "and", "zap", "are", "space", "pirates."]) (some "and") = 1 := by
  have hsim : (stringSimilarity "zip" "and" > (7 : ℚ) / 10) = False := by
    rw [sim_zip_and]
    norm_num
  simp [findBestMatch, scanWords, hsim,
    show ["zip", "and", "zap", "are", "space", "pirates."].filter (fun w => jsTrim w ≠ "") =
      ["zip", "and", "zap", "are", "space", "pirates."] from by decide,
    show normalizeStr "and" = "and" from by decide,
    show normalizeStr "zip" = "zip" from by decide,
    show ("zip" : String) ≠ "and" from by decide,
    show ("and" : String) ≠ "" from by decide,
    show jsTrim "zip" ≠ "" from by decide, show jsTrim "and" ≠ "" from by decide,
    show jsTrim "zap" ≠ "" from by decide, show jsTrim "are" ≠ "" from by decide,
    show jsTrim "space" ≠ "" from by decide, show jsTrim "pirates." ≠ "" from by decide,
    show isPartialPair "zip" "and" = false from by decide]

theorem fb_zap :
    findBestMatch (some ["zip", "and", "zap", "are", "space", "pirates."]) (some "zap") = 2 := by
  have hs1 : (stringSimilarity "zip" "zap" > (7 : ℚ) / 10) = False := by
    rw [sim_zip_zap]
    norm_num
  have hs2 : (stringSimilarity "and" "zap" > (7 : ℚ) / 10) = False := by
    rw [sim_and_zap]
    norm_num
  simp [findBestMatch, scanWords, hs1, hs2,
    show ["zip", "and", "zap", "are", "space", "pirates."].filter (fun w => jsTrim w ≠ "") =
      ["zip", "and", "zap", "are", "space", "pirates."] from by decide,
    show normalizeStr "zap" = "zap" from by decide,
    show normalizeStr "zip" = "zip" from by decide,
    show normalizeStr "and" = "and" from by decide,
    show ("zip" : String) ≠ "zap" from by decide,
    show ("and" : String) ≠ "zap" from by decide,
    show ("zap" : String) ≠ "" from by decide,
    show jsTrim "zip" ≠ "" from by decide, show jsTrim "and" ≠ "" from by decide,
    show jsTrim "zap" ≠ "" from by decide, show jsTrim "are" ≠ "" from by decide,
    show jsTrim "space" ≠ "" from by decide, show jsTrim "pirates." ≠ "" from by decide,
    show isPartialPair "zip" "zap" = false from by decide,
    show isPartialPair "and" "zap" = false from by decide]

theorem fb_past : findBestMatch (some ["past"]) (some "pass") = 0 := by
  have hsim : (stringSimilarity "past" "pass" > (7 : ℚ) / 10) = True := by
    rw [sim_past_pass]
    norm_num
  simp [findBestMatch, scanWords, hsim,
    show ["past"].filter (fun w => jsTrim w ≠ "") = ["past"] from by decide,
    show normalizeStr "past" = "past" from by decide,
    show normalizeStr "pass" = "pass" from by decide,
    show ("past" : String) ≠ "pass" from by decide,
    show ("pass" : String) ≠ "" from by decide,
    show jsTrim "past" ≠ "" from by decide,
    show isPartialPair "past" "pass" = false from by decide]

theorem trace1_eval : runReadAlong zipPageWords zipTrace = [0, 1, 1] := by
  simp only [runReadAlong, zipTrace, highlightTrace, onResult, wordHighlightEffect]
  norm_num [initialSpeechState, highlightWord,
    show zipPageWords = ["zip", "and", "zap", "are", "space", "pirates."] from by decide,
    fb_zip, fb_and,
    show jsTrim (" " ++ "zip") = "zip" from by decide,
    show extractLastWord "zip" = "zip" from by decide,
    show jsTrim (" " ++ "zip and") = "zip and" from by decide,
    show extractLastWord "zip and" = "and" from by decide,
    show jsTrim (" " ++ "zip and zap ") = "zip and zap" from by decide,
    show jsTrim "zip" = "zip" from by decide,
    show jsTrim "and" = "and" from by decide,
    show ("zip" : String) ≠ "" from by decide,
    show ("and" : String) ≠ "" from by decide]
  exact ⟨List.cons_ne_nil _ _, fun h => absurd h (List.cons_ne_nil _ _)⟩

theorem trace2_eval : runReadAlong zipPageWords backwardTrace = [2, 0] := by
  simp only [runReadAlong, backwardTrace, highlightTrace, onResult, wordHighlightEffect]
  norm_num [initialSpeechState, highlightWord,
    show zipPageWords = ["zip", "and", "zap", "are", "space", "pirates."] from by decide,
    fb_zip, fb_zap,
    show jsTrim (" " ++ "zap") = "zap" from by decide,
    show extractLastWord "zap" = "zap" from by decide,
    show jsTrim (" " ++ "zip") = "zip" from by decide,
    show extractLastWord "zip" = "zip" from by decide,
    show jsTrim "zap" = "zap" from by decide,
    show jsTrim "zip" = "zip" from by decide,
    show ("zap" : String) ≠ "" from by decide,
    show ("zip" : String) ≠ "" from by decide]
  exact ⟨List.cons_ne_nil _ _, fun h => absurd h (List.cons_ne_nil _ _)⟩

/-! ## Restart budget of the recognition engine -/

theorem stopped_stable : ∀ (m : ℕ) (s : SpeechState), s.isListening = false →
    runTerminations m s = (s, 0) := by
  intro m
  induction m with
  | zero => intro s _; rfl
  | succ m ih =>
    intro s h
    have honend : onEnd s = (s, false) := by
      cases s with
      | mk il hi rc er tr itm lw cf =>
        simp only at h
        subst h
        simp [onEnd]
    simp [runTerminations, honend, ih s h]

theorem run_budget : ∀ (k : ℕ) (s : SpeechState), s.isListening = true →
    s.hasInstance = true → k + s.restartCount ≤ maxRestartAttempts →
    runTerminations k s = ({ s with restartCount := s.restartCount + k }, k) := by
  intro k
  induction k with
  | zero => intro s _ _ _; rfl
  | succ k ih =>
    intro s h1 h2 h3
    have honend : onEnd s = ({ s with restartCount := s.restartCount + 1 }, true) := by
      simp only [onEnd, h1, h2, Bool.and_self, if_true]
      rw [if_pos (by unfold maxRestartAttempts at h3 ⊢; omega)]
    have hrec := ih { s with restartCount := s.restartCount + 1 } h1 h2 (by simp; omega)
    have harith : s.restartCount + 1 + k = s.restartCount + (k + 1) := by omega
    rw [harith] at hrec
    simp only [runTerminations, honend, hrec]
    simp [Nat.add_comm]

theorem runTerminations_add : ∀ (a b : ℕ) (s : SpeechState),
    runTerminations (a + b) s =
      ((runTerminations b (runTerminations a s).1).1,
        (runTerminations a s).2 + (runTerminations b (runTerminations a s).1).2) := by
  intro a
  induction a with
  | zero => intro b s; simp [runTerminations]
  | succ a ih =>
    intro b s
    rw [show a + 1 + b = (a + b) + 1 from by omega]
    simp [runTerminations, ih, Nat.add_assoc]

/-! ## Claims -/

/-- C1 (counterexample): the highlighted index is not monotone, and the
specification's streaming trace does not produce the indices `0, 1, 2`
it asserts: the trace interim `"zip"`, interim `"zip and"`, final
`"zip and zap "` does not yield `[0, 1, 2]` (the final event leaves the
stale last-detected word `"and"` in charge), and the trace interim
`"zap"` then interim `"zip"` moves the highlighted index backward
(its second index is smaller than its first). -/
theorem claim_C1_counterexample :
    runReadAlong zipPageWords zipTrace ≠ [0, 1, 2] ∧
    (runReadAlong zipPageWords backwardTrace).getD 1 0 <
      (runReadAlong zipPageWords backwardTrace).getD 0 0 := by
  constructor
  · rw [trace1_eval]
    decide
  · rw [trace2_eval]
    decide

/-- C1 (amended): the word-highlight effect sets the index to whatever
position the current priority word matches, with no monotonicity
guard: the specification's trace yields highlighted indices `0, 1, 1`
(the final event does not advance the highlight because the stale
last-detected word `"and"` retains priority over the final
transcript), and a later-arriving event matching an earlier reference
position does move the index backward, as in the trace interim `"zap"`
then interim `"zip"`, which yields `2` then `0`. -/
theorem claim_C1_amended :
    runReadAlong zipPageWords zipTrace = [0, 1, 1] ∧
    runReadAlong zipPageWords backwardTrace = [2, 0] :=
  ⟨trace1_eval, trace2_eval⟩

/-- C2 (counterexample): for the reference list `["", "cat"]` and the
spoken word `"cat"`, the first position of the reference list whose
normalized entry equals the normalized spoken word is `1`, but
`findBestMatch` returns `0` — the returned position is not a position
of the input reference list. -/
theorem claim_C2_counterexample :
    findBestMatch (some ["", "cat"]) (some "cat") = 0 ∧
    List.findIdx (fun w => decide (normalizeStr w = normalizeStr "cat")) ["", "cat"] = 1 := by
  constructor
  · decide
  · decide

/-- C2 (amended): `findBestMatch` applies the strict category priority
with no mixing — exact normalized equality first, then substring
containment either way, then the best similarity score provided it
strictly exceeds `0.7`, first occurrence within each category,
otherwise `-1` — but over the sub-list of valid (non-empty after
trimming) reference entries, with the returned position relative to
that sub-list (`specBestMatch` spells out that search policy). -/
theorem claim_C2_amended : ∀ (words : List String) (word : String),
    findBestMatch (some words) (some word) = specBestMatch words word :=
  findBestMatch_eq_spec

/-- C3: `stringSimilarity` returns
`1 - levenshtein(a, b) / max(|a|, |b|)` with the classic Levenshtein
distance (insertion, deletion and substitution each costing 1, here
Mathlib's `levenshtein` at `Levenshtein.defaultCost`); if both strings
are empty the result is `1`, and if exactly one is empty it is `0`. -/
theorem claim_C3_similarity (a b : String) :
    stringSimilarity a b =
      if a = "" ∧ b = "" then 1
      else if a = "" ∨ b = "" then 0
      else 1 - ((levenshtein Levenshtein.defaultCost a.data b.data : ℕ) : ℚ) /
        ((max a.length b.length : ℕ) : ℚ) := by
  simp only [stringSimilarity]
  by_cases h1 : a = "" ∧ b = ""
  · rw [if_pos h1, if_pos h1]
  · rw [if_neg h1, if_neg h1]
    by_cases h2 : a = "" ∨ b = ""
    · rw [if_pos h2, if_pos h2]
    · rw [if_neg h2, if_neg h2]
      push_neg at h2
      have hlen : a.length ≠ 0 := fun h0 => h2.1 (String.ext (List.length_eq_zero.mp h0))
      have hmax : max a.length b.length ≠ 0 := by omega
      rw [if_neg hmax, levenshteinDP_eq_lev, lev_eq_levenshtein]

/-- C4 (counterexample): after exactly 3 consecutive unexpected engine
terminations from a fresh listening session, the hook is still
listening with no surfaced error — it has issued 3 restarts and has
not reached the stopped state the claim asserts. -/
theorem claim_C4_counterexample :
    (runTerminations 3 listeningState).1.isListening = true ∧
    (runTerminations 3 listeningState).1.error = none ∧
    (runTerminations 3 listeningState).2 = 3 := by
  decide

/-- C4 (amended): from a fresh listening session, `n` consecutive
unexpected engine terminations issue `min n 3` restarts — so at most
3 restarts are ever issued and a 4th is never attempted — and once a
termination arrives after the 3-restart budget is exhausted (that is,
from the 4th consecutive termination on) the hook stops listening and
surfaces the engine-instability error. -/
theorem claim_C4_amended : ∀ (n : ℕ) (s : SpeechState),
    s.isListening = true → s.hasInstance = true → s.restartCount = 0 → s.error = none →
    (runTerminations n s).2 = min n 3 ∧
    (4 ≤ n →
      (runTerminations n s).1.isListening = false ∧ (runTerminations n s).1.error ≠ none) := by
  intro n s h1 h2 h3 h4
  rcases le_or_lt n 3 with hn | hn
  · have hb := run_budget n s h1 h2 (by unfold maxRestartAttempts; omega)
    rw [hb]
    refine ⟨by simp; omega, fun hc => absurd hc (by omega)⟩
  · obtain ⟨m, rfl⟩ : ∃ m, n = 3 + (m + 1) := ⟨n - 4, by omega⟩
    have hb := run_budget 3 s h1 h2 (by unfold maxRestartAttempts; omega)
    have hadd := runTerminations_add 3 (m + 1) s
    rw [hb] at hadd
    have hstep : runTerminations (m + 1) { s with restartCount := s.restartCount + 3 } =
        ({ s with
            restartCount := s.restartCount + 3
            isListening := false
            error := some "Speech recognition stopped unexpectedly. Please try again." }, 0) := by
      have honend : onEnd { s with restartCount := s.restartCount + 3 } =
          ({ s with
              restartCount := s.restartCount + 3
              isListening := false
              error := some "Speech recognition stopped unexpectedly. Please try again." },
           false) := by
        simp only [onEnd, h1, h2, h3, maxRestartAttempts]
        norm_num
      have hstop := stopped_stable m
        { s with
          restartCount := s.restartCount + 3
          isListening := false
          error := some "Speech recognition stopped unexpectedly. Please try again." } rfl
      simp [runTerminations, honend, hstop]
    rw [hstep] at hadd
    rw [hadd]
    refine ⟨by simp, fun _ => ⟨rfl, by simp⟩⟩

/-- C4 (witness for the amended claim): the concrete 4-termination run
from the fixture listening state. -/
theorem claim_C4_amended_witness :
    (runTerminations 4 listeningState).2 = min 4 3 ∧
    (4 ≤ 4 →
      (runTerminations 4 listeningState).1.isListening = false ∧
      (runTerminations 4 listeningState).1.error ≠ none) :=
  claim_C4_amended 4 listeningState rfl rfl rfl rfl

/-- C5 (code bug): the `onresult` handler consults no session token or
listening flag, so a late interim event arriving after `stopListening`
mutates the alignment state: from the stopped state (interim cleared,
last word `"ar"`), the late interim event `"zap"` overwrites the
interim transcript and the last-detected word, leaving a state
different from the stopped one — the event is not discarded. -/
theorem claim_C5_code_bug :
    (onResult (.interim "zap" (1 / 2)) (stopListening c5SessionState)).interim = "zap" ∧
    (stopListening c5SessionState).interim = "" ∧
    (onResult (.interim "zap" (1 / 2)) (stopListening c5SessionState)).lastWord = "zap" ∧
    (stopListening c5SessionState).lastWord = "ar" ∧
    onResult (.interim "zap" (1 / 2)) (stopListening c5SessionState) ≠
      stopListening c5SessionState := by
  have h : onResult (.interim "zap" (1 / 2)) (stopListening c5SessionState) =
      { c5SessionState with
        isListening := false
        restartCount := 0
        interim := "zap"
        lastWord := "zap"
        confidence := 1 / 2 } := by
    simp [onResult, stopListening, c5SessionState,
      show jsTrim (" " ++ "zap") = "zap" from by decide,
      show jsTrim " zap" = "zap" from by decide,
      show extractLastWord "zap" = "zap" from by decide,
      show (0 : ℚ) < 1 / 2 from by norm_num]
  rw [h]
  refine ⟨rfl, rfl, rfl, rfl, fun hco => ?_⟩
  have := congrArg SpeechState.interim hco
  simp [stopListening, c5SessionState] at this

/-- C6: on the specification's page — reference words
`["Zip", "and", "Zap", "are", "space", "pirates."]` joined as the
expected text — and the final transcript
`"zip and zap are space pirates"`, the Page-Level Scorer marks all 6
reference words matched and the accuracy percentage is 100. -/
theorem claim_C6_scorer :
    (compareTexts (joinSpaces zipReference) "zip and zap are space pirates").all
      (fun r => r.matched) = true ∧
    (compareTexts (joinSpaces zipReference) "zip and zap are space pirates").length = 6 ∧
    accuracyPct (compareTexts (joinSpaces zipReference) "zip and zap are space pirates") =
      100 := by
  have hr : compareTexts (joinSpaces zipReference) "zip and zap are space pirates" =
      [⟨"Zip", true, 1⟩, ⟨"and", true, 1⟩, ⟨"Zap", true, 1⟩, ⟨"are", true, 1⟩,
       ⟨"space", true, 1⟩, ⟨"pirates.", true, 1⟩] := by
    decide
  rw [hr]
  refine ⟨rfl, rfl, ?_⟩
  norm_num [accuracyPct]

/-- C7: `similarity("past", "pass")` is exactly `0.75` — one
substitution over 4 characters — which is below the `0.8` post-hoc
scoring threshold, so the Page-Level Scorer marks `"past"` unmatched
against the transcript `"pass"`, yet above the `0.7` live threshold,
so `findBestMatch(["past"], "pass")` returns `0`: the two call sites
use different thresholds. -/
theorem claim_C7_thresholds :
    stringSimilarity "past" "pass" = 3 / 4 ∧
    ((3 : ℚ) / 4 < 4 / 5) ∧ ((7 : ℚ) / 10 < 3 / 4) ∧
    compareTexts "past" "pass" = [⟨"past", false, 3 / 4⟩] ∧
    findBestMatch (some ["past"]) (some "pass") = 0 := by
  refine ⟨sim_past_pass, by norm_num, by norm_num, ?_, fb_past⟩
  have h1 : (stringSimilarity "past" "pass" > (0 : ℚ)) = True := by
    rw [sim_past_pass]
    norm_num
  have h2 : (stringSimilarity "past" "pass" ≥ (4 : ℚ) / 5) = False := by
    rw [sim_past_pass]
    norm_num
  simp [compareTexts, fuzzyLoop, h1, h2, sim_past_pass,
    show jsSplitRuns "past" = ["past"] from by decide,
    show jsSplitRuns "pass" = ["pass"] from by decide,
    show normalizeStr "past" = "past" from by decide,
    show normalizeStr "pass" = "pass" from by decide,
    show ("pass" : String) ≠ "past" from by decide,
    show ("past" : String) ≠ "" from by decide,
    show ("pass" : String) ≠ "" from by decide]
  norm_num

/-- C8: the matching and scoring functions are total and use sentinel
results: `normalizeText` returns the empty string on `null`/`undefined`
and empty input, `findBestMatch` returns `-1` on a `null`, empty or
invalid reference list and on a `null` or empty spoken word,
`highlightWord` propagates the same sentinels, and the Page-Level
Scorer returns an empty array when either text is empty. -/
theorem claim_C8_totality :
    normalizeText none = "" ∧ normalizeText (some "") = "" ∧
    (∀ w : Option String, findBestMatch (some []) w = -1) ∧
    (∀ ws : Option (List String), findBestMatch ws none = -1) ∧
    (∀ ws : Option (List String), findBestMatch ws (some "") = -1) ∧
    (∀ w : Option String, findBestMatch none w = -1) ∧
    (∀ actual : String, compareTexts "" actual = []) ∧
    (∀ expected : String, compareTexts expected "" = []) ∧
    (∀ ws : Option (List String), highlightWord ws none = -1) ∧
    (∀ w : Option String, highlightWord none w = -1) := by
  refine ⟨rfl, rfl, ?_, ?_, ?_, ?_, ?_, ?_, ?_, ?_⟩
  · intro w
    cases w <;> simp [findBestMatch]
  · intro ws
    cases ws <;> simp [findBestMatch]
  · intro ws
    cases ws <;> simp [findBestMatch]
  · intro w
    cases w <;> rfl
  · intro actual
    simp [compareTexts]
  · intro expected
    simp [compareTexts]
  · intro ws
    cases ws <;> rfl
  · intro w
    cases w <;> rfl

/-- C9: when the engine is unsupported or the microphone permission is
denied, `startListening` never enters the listening state and always
surfaces a non-null error (two distinguishable messages), regardless
of the other environment outcomes. -/
theorem claim_C9_guards : ∀ (perm0 : PermissionStatus) (mediaGranted : Bool)
    (permAfter : PermissionStatus) (engineStartOk : Bool) (s : SpeechState),
    s.isListening = false →
    ((startListening false perm0 mediaGranted permAfter engineStartOk s).isListening = false ∧
      (startListening false perm0 mediaGranted permAfter engineStartOk s).error =
        some "Speech recognition not supported in this browser") ∧
    ((startListening true .denied mediaGranted permAfter engineStartOk s).isListening = false ∧
      (startListening true .denied mediaGranted permAfter engineStartOk s).error =
        some "Microphone access denied. Please allow access in your browser settings.") := by
  intro perm0 mg pa eo s h
  refine ⟨⟨?_, ?_⟩, ?_, ?_⟩ <;> simp [startListening, h]

/-- C9 (witness): the guards evaluated from the idle state. -/
theorem claim_C9_guards_witness :
    ((startListening false .granted true .granted true idleState).isListening = false ∧
      (startListening false .granted true .granted true idleState).error =
        some "Speech recognition not supported in this browser") ∧
    ((startListening true .denied true .granted true idleState).isListening = false ∧
      (startListening true .denied true .granted true idleState).error =
        some "Microphone access denied. Please allow access in your browser settings.") :=
  claim_C9_guards .granted true .granted true idleState rfl

/-- C10: `findBestMatch` computes its result over the sub-list of
valid (non-empty after trimming) entries of the reference list — its
value is unchanged by pre-filtering the list — and in particular for
`["", "cat"]` and the spoken word `"cat"` it returns `0`, the match's
position in the filtered sub-list, not `1`, its position in the input
list. -/
theorem claim_C10_filtered :
    (∀ (words : List String) (word : String),
      findBestMatch (some words) (some word) =
        findBestMatch (some (words.filter (fun w => jsTrim w ≠ ""))) (some word)) ∧
    findBestMatch (some ["", "cat"]) (some "cat") = 0 := by
  constructor
  · intro words word
    by_cases h2 : word = ""
    · simp [findBestMatch, h2]
    · by_cases h4 : words.filter (fun w => jsTrim w ≠ "") = []
      · by_cases h1 : words = []
        · simp [findBestMatch, h1, h2]
        · have hR : findBestMatch (some (words.filter (fun w => jsTrim w ≠ ""))) (some word) =
              -1 := by
            simp only [findBestMatch]
            rw [if_pos (Or.inl h4)]
          by_cases h3 : normalizeStr word = ""
          · have hL : findBestMatch (some words) (some word) = -1 := by
              simp only [findBestMatch]
              rw [if_neg (by simp [h1, h2]), if_pos h3]
            rw [hL, hR]
          · have hL : findBestMatch (some words) (some word) = -1 := by
              simp only [findBestMatch]
              rw [if_neg (by simp [h1, h2]), if_neg h3, if_pos h4]
            rw [hL, hR]
      · have h1 : words ≠ [] := by
          intro h
          rw [h] at h4
          exact h4 rfl
        have hff : (words.filter (fun w => jsTrim w ≠ "")).filter (fun w => jsTrim w ≠ "") =
            words.filter (fun w => jsTrim w ≠ "") := by
          rw [List.filter_filter]
          simp
        by_cases h3 : normalizeStr word = ""
        · have hL : findBestMatch (some words) (some word) = -1 := by
            simp only [findBestMatch]
            rw [if_neg (by simp [h1, h2]), if_pos h3]
          have hR : findBestMatch (some (words.filter (fun w => jsTrim w ≠ ""))) (some word) =
              -1 := by
            simp only [findBestMatch]
            rw [if_neg (show ¬(words.filter (fun w => jsTrim w ≠ "") = [] ∨ word = "") by
                  rintro (h | h)
                  exacts [h4 h, h2 h]),
              if_pos h3]
          rw [hL, hR]
        · simp only [findBestMatch]
          rw [if_neg (by simp [h1, h2]), if_neg h3, if_neg h4,
            if_neg (show ¬(words.filter (fun w => jsTrim w ≠ "") = [] ∨ word = "") by
              rintro (h | h)
              exacts [h4 h, h2 h]),
            if_neg h3, hff, if_neg h4]
  · decide

end StoryGenius
